import Mathlib

/-!
Verification of the migration pipeline's scorecard, execution-plan and
remediation components, embedded from the repository's scripts:
`scripts/generate-scorecard.ts`, `scripts/compare-metrics.ts`, the manifest
generator's `makeExecutionPlan`, `scripts/validate-execution-plan.js` and the
remediation while-loop of the workflow shell script.
-/

namespace Migration

/-- The three-valued verdict `PASS | NEEDS_REVIEW | FAIL` used for every
dimension status and for the overall screen status in
`generate-scorecard.ts`. -/
inductive St3 where
  | PASS
  | NEEDS_REVIEW
  | FAIL
deriving DecidableEq, Repr

/-- Pixel-comparison result for one screen, the parsed content of
`artifacts/validation/scorecards/SCREENID.json`. -/
structure PixelResult where
  overall : St3
  maxDiffPercentage : ℚ
deriving DecidableEq, Repr

/-- Severity tag on a structural delta record (`compare-metrics.ts`). -/
inductive Severity where
  | critical
  | warn
  | info
deriving DecidableEq, Repr

/-- One structural delta record as written by `compare-metrics.ts`; the
human-readable message string is not modelled. -/
structure Delta where
  severity : Severity
  metric : String
deriving DecidableEq, Repr

/-- Per-screen E2E summary record (`e2e-results/summary.json`). -/
structure E2ERecord where
  passed : Nat
  failed : Nat
deriving DecidableEq, Repr

/-- Per-screen accessibility summary record (`a11y-results/summary.json`). -/
structure A11yRecord where
  criticalViolations : Nat
deriving DecidableEq, Repr

/-- Per-screen performance summary record (`perf-results/summary.json`). -/
structure PerfRecord where
  loadTimeMs : Nat
  maxBundleKb : Nat
deriving DecidableEq, Repr

/-- Everything `score` in `generate-scorecard.ts` reads for one screen.
`none` models a missing file, record or directory. `metricsDeltas` is the
list of parsed delta files found under the screen's metrics-deltas directory
(`none` when the directory does not exist). `expectedStates` is the length of
the manifest's `uiStates` array and `capturedStates` the number of captured
PNG files (0 when the screenshots directory is absent). -/
structure Evidence where
  pixel : Option PixelResult
  metricsDeltas : Option (List (List Delta))
  e2e : Option E2ERecord
  a11y : Option A11yRecord
  perf : Option PerfRecord
  expectedStates : Nat
  capturedStates : Nat
deriving DecidableEq, Repr

/-- JavaScript's `Number.MAX_SAFE_INTEGER`. -/
def maxSafeInteger : Nat := 9007199254740991

/-- Models the JavaScript idiom `n || Number.MAX_SAFE_INTEGER` for a
numeric field: `0` is falsy, so it is replaced by the fallback. -/
def jsOrMax (n : Nat) : Nat := if n = 0 then maxSafeInteger else n

/-- The helper `passFailOrReview` of `generate-scorecard.ts`. -/
def passFailOrReview (hasData passCondition : Bool) : St3 :=
  if !hasData then St3.NEEDS_REVIEW
  else if passCondition then St3.PASS
  else St3.FAIL

/-- The six dimension statuses of one screen scorecard, in the insertion
order of the `dims` object literal in `generate-scorecard.ts`. -/
structure Dimensions where
  visualFidelity : St3
  structuralParity : St3
  functionalParity : St3
  uiStateCoverage : St3
  accessibilityBaseline : St3
  performanceGuardrail : St3
deriving DecidableEq, Repr

/-- A screen scorecard: overall status plus the per-dimension statuses (the
raw measurements echoed alongside each status in the JSON output do not
influence any downstream decision and are not modelled). -/
structure ScreenScorecard where
  overall : St3
  dimensions : Dimensions
deriving DecidableEq, Repr

/-- `Object.values(dims)` in insertion order. -/
def statusList (d : Dimensions) : List St3 :=
  [d.visualFidelity, d.structuralParity, d.functionalParity,
   d.uiStateCoverage, d.accessibilityBaseline, d.performanceGuardrail]

/-- The overall reduction at the end of `score`: FAIL if any dimension is
FAIL, else NEEDS_REVIEW if any dimension is NEEDS_REVIEW, else PASS. -/
def overallOf (d : Dimensions) : St3 :=
  if St3.FAIL ∈ statusList d then St3.FAIL
  else if St3.NEEDS_REVIEW ∈ statusList d then St3.NEEDS_REVIEW
  else St3.PASS

/-- Total number of `severity === 'critical'` records across all delta files
found under the screen's metrics-deltas directory. -/
def criticalDeltaCount (files : List (List Delta)) : Nat :=
  (files.map (fun ds => (ds.filter (fun d => d.severity == Severity.critical)).length)).sum

/-- The `score` function of `generate-scorecard.ts`. A missing pixel file is
replaced by the source's literal fallback record with overall PASS and
maxDiffPercentage 0; a missing e2e record by a record with zero passed and
zero failed; the perf thresholds are 3000 ms and 250 KB, read through the
zero-falsy `Number.MAX_SAFE_INTEGER` fallback. -/
def score (ev : Evidence) : ScreenScorecard :=
  let pixel := ev.pixel.getD { overall := St3.PASS, maxDiffPercentage := 0 }
  let criticalDeltas : Nat :=
    match ev.metricsDeltas with
    | none => 0
    | some files => criticalDeltaCount files
  let e := ev.e2e.getD { passed := 0, failed := 0 }
  let a := ev.a11y.getD { criticalViolations := 0 }
  let p := ev.perf.getD { loadTimeMs := 0, maxBundleKb := 0 }
  let dims : Dimensions :=
    { visualFidelity :=
        if pixel.overall = St3.FAIL then St3.FAIL
        else if pixel.overall = St3.NEEDS_REVIEW then St3.NEEDS_REVIEW
        else St3.PASS
      structuralParity := passFailOrReview ev.metricsDeltas.isSome (criticalDeltas == 0)
      functionalParity := passFailOrReview ev.e2e.isSome (e.failed == 0)
      uiStateCoverage := passFailOrReview (decide (0 < ev.expectedStates))
        (decide (ev.expectedStates ≤ ev.capturedStates))
      accessibilityBaseline := passFailOrReview ev.a11y.isSome (a.criticalViolations == 0)
      performanceGuardrail := passFailOrReview ev.perf.isSome
        (decide (jsOrMax p.loadTimeMs ≤ 3000) && decide (jsOrMax p.maxBundleKb ≤ 250)) }
  { overall := overallOf dims, dimensions := dims }

/-- The batch summary record written to `_composite-summary.json`. -/
structure BatchSummary where
  total : Nat
  pass : Nat
  needsReview : Nat
  fail : Nat
  criticalFailures : Nat
deriving DecidableEq, Repr

/-- The critical-failure filter predicate from `main` in
`generate-scorecard.ts`. -/
def isCriticalCard (c : ScreenScorecard) : Bool :=
  c.overall == St3.FAIL ||
  c.dimensions.structuralParity == St3.FAIL ||
  c.dimensions.functionalParity == St3.FAIL ||
  c.dimensions.accessibilityBaseline == St3.FAIL ||
  c.dimensions.performanceGuardrail == St3.FAIL

/-- The summary computation in `main` of `generate-scorecard.ts`. -/
def summarize (cards : List ScreenScorecard) : BatchSummary :=
  { total := cards.length
    pass := (cards.filter (fun c => c.overall == St3.PASS)).length
    needsReview := (cards.filter (fun c => c.overall == St3.NEEDS_REVIEW)).length
    fail := (cards.filter (fun c => c.overall == St3.FAIL)).length
    criticalFailures := (cards.filter isCriticalCard).length }

/-! ### Structural metrics comparison (`compare-metrics.ts`) -/

/-- The six DOM metrics captured per viewport. -/
structure Metrics where
  documentWidth : ℚ
  documentHeight : ℚ
  elementCount : ℚ
  headerCount : ℚ
  buttonCount : ℚ
  inputCount : ℚ
deriving DecidableEq, Repr

/-- `pctDelta` of `compare-metrics.ts`: relative delta with denominator
clamped to at least 1. -/
def pctDelta (a b : ℚ) : ℚ := |b - a| / max 1 a

/-- The per-viewport comparison `compareMetrics`: thresholds 0.2/0.1 for the
document and element metrics, 0.5/0.3 for the header, button and input
counts; an all-clear list gets a single info record. -/
def compareMetrics (base react : Metrics) : List Delta :=
  let checks : List (String × (Metrics → ℚ) × ℚ × ℚ) :=
    [("documentWidth", Metrics.documentWidth, 2/10, 1/10),
     ("documentHeight", Metrics.documentHeight, 2/10, 1/10),
     ("elementCount", Metrics.elementCount, 2/10, 1/10),
     ("headerCount", Metrics.headerCount, 5/10, 3/10),
     ("buttonCount", Metrics.buttonCount, 5/10, 3/10),
     ("inputCount", Metrics.inputCount, 5/10, 3/10)]
  let deltas := checks.foldl (fun acc c =>
    let d := pctDelta (c.2.1 base) (c.2.1 react)
    if c.2.2.1 ≤ d then acc ++ [{ severity := Severity.critical, metric := c.1 }]
    else if c.2.2.2 ≤ d then acc ++ [{ severity := Severity.warn, metric := c.1 }]
    else acc) []
  if deltas.length = 0 then [{ severity := Severity.info, metric := "all" }] else deltas

/-- The viewport widths iterated by `compare-metrics.ts`. -/
def VIEWPORTS : List String := ["1920", "1440", "1024", "768"]

/-- The per-screen loop body of `main` in `compare-metrics.ts`: for each
viewport, if either the baseline or the captured metrics file is missing, a
single critical `metrics_artifact` record is written for that viewport;
otherwise the real comparison result is written. The returned list is the
set of delta files the screen's metrics-deltas directory then contains. -/
def compareScreenDeltas (base react : String → Option Metrics) : List (List Delta) :=
  VIEWPORTS.map (fun vp =>
    match base vp, react vp with
    | some b, some r => compareMetrics b r
    | _, _ => [{ severity := Severity.critical, metric := "metrics_artifact" }])

/-! ### Concrete evidence records used as test inputs -/

/-- Evidence for a screen for which no verification artifact exists at all. -/
def evNoEvidence : Evidence :=
  { pixel := none, metricsDeltas := none, e2e := none, a11y := none, perf := none,
    expectedStates := 0, capturedStates := 0 }

/-- Evidence whose only failing dimension is visual fidelity: the pixel
comparison reports FAIL at 15 percent, every other dimension is clean. -/
def evVisualOnlyFail : Evidence :=
  { pixel := some { overall := St3.FAIL, maxDiffPercentage := 15 }
    metricsDeltas := some [[{ severity := Severity.info, metric := "all" }]]
    e2e := some { passed := 2, failed := 0 }
    a11y := some { criticalViolations := 0 }
    perf := some { loadTimeMs := 1200, maxBundleKb := 80 }
    expectedStates := 1, capturedStates := 1 }

/-- Evidence for a screen whose manifest declares no uiStates and for which a
clean pixel result exists. -/
def evZeroDeclaredStates : Evidence :=
  { pixel := some { overall := St3.PASS, maxDiffPercentage := 0 }
    metricsDeltas := none, e2e := none, a11y := none, perf := none,
    expectedStates := 0, capturedStates := 0 }

/-- Evidence with an e2e record present but containing zero checks. -/
def evEmptyE2E : Evidence :=
  { pixel := some { overall := St3.PASS, maxDiffPercentage := 0 }
    metricsDeltas := none
    e2e := some { passed := 0, failed := 0 }
    a11y := none, perf := none, expectedStates := 0, capturedStates := 0 }

/-! ### Claims about the ScoreAggregator and BatchSummarizer -/

/-- C1 counterexample: for a screen with no pixel-comparison result at all
(`pixel = none`), `score` assigns visual fidelity the status PASS, not
NEEDS_REVIEW — the claim that every dimension with absent evidence is
NEEDS_REVIEW is false exactly on its own named example. -/
theorem c1_counterexample :
    evNoEvidence.pixel = none ∧
    (score evNoEvidence).dimensions.visualFidelity = St3.PASS ∧
    St3.PASS ≠ St3.NEEDS_REVIEW := by
  refine ⟨rfl, rfl, by decide⟩

/-- C1 (amended): with evidence absent, the structural, functional,
accessibility and performance dimensions are NEEDS_REVIEW, and so is UI-state
coverage when the manifest declares zero uiStates (the code's has-data gate
for that dimension); but visual fidelity defaults to PASS when no
pixel-comparison result exists, because the missing file is replaced by a
PASS fallback record. -/
theorem c1_amended (ev : Evidence) :
    (ev.metricsDeltas = none → (score ev).dimensions.structuralParity = St3.NEEDS_REVIEW) ∧
    (ev.e2e = none → (score ev).dimensions.functionalParity = St3.NEEDS_REVIEW) ∧
    (ev.a11y = none → (score ev).dimensions.accessibilityBaseline = St3.NEEDS_REVIEW) ∧
    (ev.perf = none → (score ev).dimensions.performanceGuardrail = St3.NEEDS_REVIEW) ∧
    (ev.expectedStates = 0 → (score ev).dimensions.uiStateCoverage = St3.NEEDS_REVIEW) ∧
    (ev.pixel = none → (score ev).dimensions.visualFidelity = St3.PASS) := by
  refine ⟨fun h => ?_, fun h => ?_, fun h => ?_, fun h => ?_, fun h => ?_, fun h => ?_⟩ <;>
    simp [score, passFailOrReview, h]

/-- C1 witness: the amended statement evaluated on the all-absent evidence
record. -/
theorem c1_amended_witness :
    (score evNoEvidence).dimensions.structuralParity = St3.NEEDS_REVIEW ∧
    (score evNoEvidence).dimensions.functionalParity = St3.NEEDS_REVIEW ∧
    (score evNoEvidence).dimensions.accessibilityBaseline = St3.NEEDS_REVIEW ∧
    (score evNoEvidence).dimensions.performanceGuardrail = St3.NEEDS_REVIEW ∧
    (score evNoEvidence).dimensions.uiStateCoverage = St3.NEEDS_REVIEW ∧
    (score evNoEvidence).dimensions.visualFidelity = St3.PASS := by
  have h := c1_amended evNoEvidence
  exact ⟨h.1 rfl, h.2.1 rfl, h.2.2.1 rfl, h.2.2.2.1 rfl, h.2.2.2.2.1 rfl, h.2.2.2.2.2 rfl⟩

/-- C2 counterexample: a scorecard whose only FAIL dimension is visual
fidelity (all five other dimensions PASS) has overall FAIL and IS counted in
`criticalFailures` (the count is 1, not 0), because the filter's first
disjunct `overall === FAIL` already matches visual-only failures. -/
theorem c2_counterexample :
    (score evVisualOnlyFail).dimensions.visualFidelity = St3.FAIL ∧
    (score evVisualOnlyFail).dimensions.structuralParity = St3.PASS ∧
    (score evVisualOnlyFail).dimensions.functionalParity = St3.PASS ∧
    (score evVisualOnlyFail).dimensions.uiStateCoverage = St3.PASS ∧
    (score evVisualOnlyFail).dimensions.accessibilityBaseline = St3.PASS ∧
    (score evVisualOnlyFail).dimensions.performanceGuardrail = St3.PASS ∧
    (score evVisualOnlyFail).overall = St3.FAIL ∧
    (summarize [score evVisualOnlyFail]).criticalFailures = 1 := by
  decide

/-- The overall status is FAIL exactly when some dimension status is FAIL. -/
theorem overallOf_fail_iff (d : Dimensions) :
    overallOf d = St3.FAIL ↔ St3.FAIL ∈ statusList d := by
  unfold overallOf
  split
  · next h => exact iff_of_true rfl h
  · next h => split <;> exact iff_of_false (by decide) h

/-- The overall field of a card produced by `score` is the overall reduction
of its own dimension statuses. -/
theorem score_overall (ev : Evidence) :
    (score ev).overall = overallOf (score ev).dimensions := rfl

/-- C2 (amended): `criticalFailures` counts the screens whose overall status
is FAIL, or whose structural, functional, accessibility or performance
dimension is FAIL; since any FAIL dimension already forces overall FAIL, the
count equals the plain overall-FAIL count, and visual-only failures are
included in it, not excluded. -/
theorem c2_amended (evs : List Evidence) :
    (summarize (evs.map score)).criticalFailures = (summarize (evs.map score)).fail := by
  show (List.filter _ _).length = (List.filter _ _).length
  congr 1
  apply List.filter_congr
  intro c hc
  obtain ⟨ev, _, rfl⟩ := List.mem_map.1 hc
  by_cases ho : (score ev).overall = St3.FAIL
  · simp [isCriticalCard, ho]
  · have hmem : St3.FAIL ∉ statusList (score ev).dimensions := fun hm =>
      ho ((score_overall ev).trans ((overallOf_fail_iff _).2 hm))
    simp only [statusList, List.mem_cons, List.not_mem_nil, or_false] at hmem
    push_neg at hmem
    obtain ⟨h1, h2, h3, h4, h5, h6⟩ := hmem
    simp [isCriticalCard, beq_eq_false_iff_ne.2 ho, beq_eq_false_iff_ne.2 (Ne.symm h2),
      beq_eq_false_iff_ne.2 (Ne.symm h3), beq_eq_false_iff_ne.2 (Ne.symm h5),
      beq_eq_false_iff_ne.2 (Ne.symm h6)]

/-- C5 counterexample: a manifest declaring zero uiStates yields UI-state
coverage NEEDS_REVIEW, not the automatic PASS the claim states. -/
theorem c5_counterexample :
    evZeroDeclaredStates.expectedStates = 0 ∧
    evZeroDeclaredStates.capturedStates ≥ evZeroDeclaredStates.expectedStates ∧
    (score evZeroDeclaredStates).dimensions.uiStateCoverage = St3.NEEDS_REVIEW := by
  decide

/-- C5 (amended): UI-state coverage is PASS exactly when the manifest
declares at least one uiState and the captured-state count reaches the
declared count; it is NEEDS_REVIEW when zero states are declared (the code
treats that as no data, not as automatic satisfaction), and FAIL when states
are declared but not all captured. -/
theorem c5_amended (ev : Evidence) :
    (score ev).dimensions.uiStateCoverage =
      (if ev.expectedStates = 0 then St3.NEEDS_REVIEW
       else if ev.expectedStates ≤ ev.capturedStates then St3.PASS
       else St3.FAIL) := by
  rcases Nat.eq_zero_or_pos ev.expectedStates with h | h
  · simp [score, passFailOrReview, h]
  · have h0 : ev.expectedStates ≠ 0 := Nat.pos_iff_ne_zero.1 h
    by_cases hle : ev.expectedStates ≤ ev.capturedStates <;>
      simp [score, passFailOrReview, h, h0, hle]

/-- C6 counterexample: an e2e record with zero passed and zero failed checks
produces functional parity PASS, contradicting the claim that PASS requires
at least one recorded check. -/
theorem c6_counterexample :
    evEmptyE2E.e2e = some { passed := 0, failed := 0 } ∧
    (score evEmptyE2E).dimensions.functionalParity = St3.PASS := by
  decide

/-- C6 (amended): functional parity is NEEDS_REVIEW exactly when no e2e
record exists for the screen; when a record exists it is PASS whenever the
failed count is zero — including a record with zero checks — and FAIL
otherwise. -/
theorem c6_amended (ev : Evidence) :
    (score ev).dimensions.functionalParity =
      (match ev.e2e with
       | none => St3.NEEDS_REVIEW
       | some r => if r.failed = 0 then St3.PASS else St3.FAIL) := by
  rcases h : ev.e2e with _ | r
  · simp [score, passFailOrReview, h]
  · by_cases hf : r.failed = 0
    · simp [score, passFailOrReview, h, hf]
    · simp [score, passFailOrReview, h, hf]

/-- C10: if the metrics-deltas comparison ran for a screen and the baseline
or the captured metrics file is missing for some viewport, a critical
`metrics_artifact` delta record is written for that viewport, and the
resulting delta set makes the screen's structural parity FAIL (not
NEEDS_REVIEW) even though the underlying metrics were never collected. -/
theorem c10_missing_metrics_fail (base react : String → Option Metrics) (vp : String)
    (hvp : vp ∈ VIEWPORTS) (hmiss : base vp = none ∨ react vp = none)
    (ev : Evidence) (hev : ev.metricsDeltas = some (compareScreenDeltas base react)) :
    [({ severity := Severity.critical, metric := "metrics_artifact" } : Delta)] ∈
      compareScreenDeltas base react ∧
    (score ev).dimensions.structuralParity = St3.FAIL := by
  have hfile : [({ severity := Severity.critical, metric := "metrics_artifact" } : Delta)] ∈
      compareScreenDeltas base react := by
    apply List.mem_map.2
    refine ⟨vp, hvp, ?_⟩
    rcases hmiss with h | h
    · rw [h]
    · rw [h]; rcases base vp <;> rfl
  refine ⟨hfile, ?_⟩
  have hcount : 1 ≤ criticalDeltaCount (compareScreenDeltas base react) := by
    have hmemc : (1 : Nat) ∈ ((compareScreenDeltas base react).map
        (fun ds => (ds.filter (fun d => d.severity == Severity.critical)).length)) := by
      apply List.mem_map.2
      exact ⟨_, hfile, rfl⟩
    exact List.single_le_sum (fun x _ => Nat.zero_le x) 1 hmemc
  have hne : criticalDeltaCount (compareScreenDeltas base react) ≠ 0 := by omega
  simp [score, passFailOrReview, hev, hne]

/-- C10 witness: fully absent metrics for every viewport on a screen. -/
def evMissingMetrics : Evidence :=
  { pixel := none
    metricsDeltas := some (compareScreenDeltas (fun _ => none) (fun _ => none))
    e2e := none, a11y := none, perf := none, expectedStates := 0, capturedStates := 0 }

/-- C10 witness: the theorem applied to the all-missing metrics screen at
viewport 1920. -/
theorem c10_witness :
    [({ severity := Severity.critical, metric := "metrics_artifact" } : Delta)] ∈
      compareScreenDeltas (fun _ => none) (fun _ => none) ∧
    (score evMissingMetrics).dimensions.structuralParity = St3.FAIL :=
  c10_missing_metrics_fail (fun _ => none) (fun _ => none) "1920" (by decide)
    (Or.inl rfl) evMissingMetrics rfl

/-! ### Execution plan builder (`makeExecutionPlan` in the manifest
generator) -/

/-- Screen complexity, `low | medium | high`. -/
inductive Complexity where
  | low
  | medium
  | high
deriving DecidableEq, Repr

/-- Plan phase, `foundation | standard | guided`. -/
inductive Phase where
  | foundation
  | standard
  | guided
deriving DecidableEq, Repr

/-- `COMPLEXITY_RANK` lookup table. -/
def complexityRank : Complexity → Nat
  | Complexity.low => 0
  | Complexity.medium => 1
  | Complexity.high => 2

/-- `PHASE_RANK` lookup table. -/
def phaseRank : Phase → Nat
  | Phase.foundation => 0
  | Phase.standard => 1
  | Phase.guided => 2

/-- The part of an interactive contract the plan builder reads:
`contract?.action?.to` when it is a string, else absent. -/
structure NavContract where
  actionTo : Option String
deriving DecidableEq, Repr

/-- The part of a screen manifest consumed by `makeExecutionPlan`. -/
structure Manifest where
  screenId : String
  route : String
  complexity : Complexity
  interactiveContracts : List NavContract
deriving DecidableEq, Repr

/-- The `byRoute` map of `makeExecutionPlan`: a JavaScript `Map` built from
the manifests in order, so a later manifest with the same route overwrites an
earlier one; lookup therefore returns the last match. -/
def byRoute (ms : List Manifest) (target : String) : Option String :=
  (ms.reverse.find? (fun m => m.route == target)).map Manifest.screenId

/-- The dependency candidates collected for one manifest, in contract order:
each contract whose navigation target resolves via `byRoute` to a screen
other than the manifest itself. -/
def rawDeps (ms : List Manifest) (m : Manifest) : List String :=
  m.interactiveContracts.filterMap (fun c =>
    match c.actionTo with
    | some target =>
      match byRoute ms target with
      | some dep => if dep == m.screenId then none else some dep
      | none => none
    | none => none)

/-- The sequence of code points of a string; JavaScript's default string
comparison (`Array.sort()` on strings, `localeCompare` tie-breaks) is
modelled as the lexicographic order on these sequences. -/
def strKey (s : String) : List Nat := s.data.map (fun c => c.toNat)

/-- Lexicographic string order used for dependency arrays and id lists. -/
def strLe (a b : String) : Prop := strKey a ≤ strKey b

instance : DecidableRel strLe :=
  fun a b => inferInstanceAs (Decidable (strKey a ≤ strKey b))

instance : IsTotal String strLe := ⟨fun a b => le_total (strKey a) (strKey b)⟩

instance : IsTrans String strLe := ⟨fun _ _ _ hab hbc => le_trans hab hbc⟩

/-- The final dependency list of one plan entry:
`Array.from(depSet).sort()` — the deduplicated candidates in lexicographic
order. -/
def depsOf (ms : List Manifest) (m : Manifest) : List String :=
  List.insertionSort strLe (rawDeps ms m).dedup

/-- One entry of `plan.screens` (the copied `sourceFiles` field carries no
information used anywhere downstream and is not modelled). -/
structure PlanEntry where
  screenId : String
  route : String
  complexity : Complexity
  phase : Phase
  priority : Nat
  dependencies : List String
deriving DecidableEq, Repr

/-- `phaseFor`: high complexity goes to the guided phase, everything else to
standard. -/
def phaseFor (m : Manifest) : Phase :=
  if m.complexity = Complexity.high then Phase.guided else Phase.standard

/-- The plan entry derived from one manifest. -/
def entryOf (ms : List Manifest) (m : Manifest) : PlanEntry :=
  { screenId := m.screenId, route := m.route, complexity := m.complexity,
    phase := phaseFor m, priority := 100, dependencies := depsOf ms m }

/-- The comparison key of the canonical plan sort: phase rank, then
complexity rank, then dependency count, then screenId (`localeCompare`
modelled as the lexicographic string order). -/
def planKey (e : PlanEntry) : Nat ×ₗ (Nat ×ₗ (Nat ×ₗ List Nat)) :=
  toLex (phaseRank e.phase,
    toLex (complexityRank e.complexity, toLex (e.dependencies.length, strKey e.screenId)))

/-- The canonical ordering relation used by the plan sort. -/
def planLe (a b : PlanEntry) : Prop := planKey a ≤ planKey b

instance : DecidableRel planLe :=
  fun a b => inferInstanceAs (Decidable (planKey a ≤ planKey b))

instance : IsTotal PlanEntry planLe := ⟨fun a b => le_total (planKey a) (planKey b)⟩

instance : IsTrans PlanEntry planLe := ⟨fun _ _ _ hab hbc => le_trans hab hbc⟩

/-- An execution plan record (`_execution-plan.json`). -/
structure ExecutionPlan where
  planVersion : String
  orderingRules : List String
  screens : List PlanEntry
deriving DecidableEq, Repr

/-- `makeExecutionPlan`: derive an entry per manifest and sort by the
canonical tuple. It performs no cycle check of any kind. -/
def makeExecutionPlan (ms : List Manifest) : ExecutionPlan :=
  { planVersion := "1.0"
    orderingRules :=
      ["phase(foundation,standard,guided)", "complexity(low,medium,high)",
       "dependencyCount(asc)", "screenId(asc)"]
    screens := List.insertionSort planLe (ms.map (entryOf ms)) }

/-! ### Dependency graph and cycle detection
(`detectCycle` in `validate-execution-plan.js`) -/

/-- The dependency graph handed to `detectCycle`: an insertion-ordered map
from screenId to its dependency list. -/
abbrev Graph := List (String × List String)

/-- `Map.set` semantics: overwrite the value when the key exists (keeping its
position), append otherwise. -/
def mapSet (g : Graph) (key : String) (value : List String) : Graph :=
  if g.any (fun p => p.1 == key) then
    g.map (fun p => if p.1 == key then (key, value) else p)
  else g ++ [(key, value)]

/-- `graph.get(node) || []`. -/
def graphDeps (g : Graph) (node : String) : List String :=
  ((g.find? (fun p => p.1 == node)).map Prod.snd).getD []

/-- An edge of the dependency graph: some map entry for `a` lists `b`. -/
def EdgeIn (g : Graph) (a b : String) : Prop := ∃ p ∈ g, p.1 = a ∧ b ∈ p.2

instance (g : Graph) : DecidableRel (EdgeIn g) :=
  fun a b => inferInstanceAs (Decidable (∃ p ∈ g, p.1 = a ∧ b ∈ p.2))

/-- The mutable state of the depth-first search: the visited set, the
explicit recursion stack and the current trail. -/
structure DfsState where
  visited : List String
  stack : List String
  trail : List String
deriving DecidableEq, Repr

/-- The dependency loop inside `dfs`, with the nested `dfs` call abstracted
as `recCall`: skip dependencies that are visited but off the recursion
stack; when a dependency is on the recursion stack, return the first cycle —
the trail from that dependency's first occurrence, closed with the
dependency itself; recurse into unvisited dependencies. -/
def dfsDeps (recCall : String → DfsState → Option (List String) × DfsState) :
    List String → DfsState → Option (List String) × DfsState
  | [], st => (none, st)
  | dep :: rest, st =>
    if dep ∈ st.visited then
      if dep ∈ st.stack then
        (some (st.trail.drop (st.trail.indexOf dep) ++ [dep]), st)
      else dfsDeps recCall rest st
    else
      match recCall dep st with
      | (some c, st2) => (some c, st2)
      | (none, st2) => dfsDeps recCall rest st2

/-- One `dfs(node)` call: mark the node visited, push it on the recursion
stack and the trail, walk its dependencies, then pop. The fuel bounds the
nesting depth; `detectCycle` passes more fuel than the source's recursion
(which only ever enters unvisited nodes) can consume. -/
def dfsNode (g : Graph) : Nat → String → DfsState → Option (List String) × DfsState
  | 0, _, st => (none, st)
  | fuel + 1, node, st =>
    let st1 : DfsState :=
      { visited := node :: st.visited, stack := node :: st.stack,
        trail := st.trail ++ [node] }
    match dfsDeps (fun dep st2 => dfsNode g fuel dep st2) (graphDeps g node) st1 with
    | (some c, st2) => (some c, st2)
    | (none, st2) =>
      (none, { visited := st2.visited, stack := st2.stack.erase node,
               trail := st2.trail.dropLast })

/-- The top-level loop of `detectCycle`: try a search from every not yet
visited key in insertion order, returning the first cycle found. -/
def detectGo (g : Graph) (fuel : Nat) : List String → DfsState → Option (List String)
  | [], _ => none
  | node :: rest, st =>
    if node ∈ st.visited then detectGo g fuel rest st
    else
      match dfsNode g fuel node st with
      | (some c, _) => some c
      | (none, st2) => detectGo g fuel rest st2

/-- An upper bound on the number of distinct node names the search can ever
visit. -/
def graphNodeCount (g : Graph) : Nat :=
  ((g.map Prod.fst) ++ (g.map Prod.snd).flatten).dedup.length

/-- `detectCycle` of `validate-execution-plan.js`. -/
def detectCycle (g : Graph) : Option (List String) :=
  detectGo g (graphNodeCount g + 1) (g.map Prod.fst)
    { visited := [], stack := [], trail := [] }

/-! ### Execution plan validation (`main` in `validate-execution-plan.js`) -/

/-- One row of `_summary.json`, built from a manifest. -/
structure SummaryRow where
  screenId : String
  route : String
  complexity : Complexity
deriving DecidableEq, Repr

/-- The `_summary.json` derivation in the manifest generator's `main`. -/
def mkSummary (ms : List Manifest) : List SummaryRow :=
  ms.map (fun m =>
    { screenId := m.screenId, route := m.route, complexity := m.complexity })

/-- `summaryById.get(id)`: a JavaScript `Map` keyed by screenId, so the last
row wins on duplicate ids. -/
def lookupRow (rows : List SummaryRow) (id : String) : Option SummaryRow :=
  rows.reverse.find? (fun r => r.screenId == id)

/-- `Array.from(summaryById.keys()).sort()`: the distinct screenIds in
lexicographic order. -/
def summaryIds (rows : List SummaryRow) : List String :=
  List.insertionSort strLe (rows.map SummaryRow.screenId).dedup

/-- The distinct error messages `main` in `validate-execution-plan.js` can
push, one constructor per push site. -/
inductive PlanError where
  | emptyPlan
  | missingScreenId
  | duplicateScreen (id : String)
  | unknownScreen (id : String)
  | routeMismatch (id planRoute summaryRoute : String)
  | complexityMismatch (id : String)
  | invalidPhase (id : String)
  | invalidComplexity (id : String)
  | duplicateDep (id dep : String)
  | selfDep (id : String)
  | unknownDep (id dep : String)
  | missingScreen (id : String)
  | cycle (nodes : List String)
  | orderMismatch
deriving DecidableEq, Repr

/-- The valid values of the `phase` field. -/
def phaseOrder : List Phase := [Phase.foundation, Phase.standard, Phase.guided]

/-- The valid values of the `complexity` field. -/
def complexityOrder : List Complexity :=
  [Complexity.low, Complexity.medium, Complexity.high]

/-- The per-dependency check loop: duplicate within the entry, self
dependency, unknown dependency — in the source's push order, threading the
`depSet` accumulator. -/
def depErrors (rows : List SummaryRow) (id : String) :
    List String → List String → List PlanError
  | [], _ => []
  | dep :: rest, depSet =>
    (if dep ∈ depSet then [PlanError.duplicateDep id dep] else []) ++
    (if dep == id then [PlanError.selfDep id] else []) ++
    (if (lookupRow rows dep).isNone then [PlanError.unknownDep id dep] else []) ++
    depErrors rows id rest (dep :: depSet)

/-- The accumulator of the per-entry validation loop: the `seen` set, the
`actualOrder` array, the dependency graph and the collected errors. -/
structure LoopAcc where
  seen : List String
  order : List String
  graph : Graph
  errs : List PlanError
deriving Repr

/-- The per-entry loop of `main`: an entry without a screenId only
contributes an error (`continue`); otherwise the duplicate, unknown-screen,
route, complexity, phase-validity, complexity-validity and dependency checks
run in source order and the entry is recorded in `seen`, `actualOrder` and
the graph. -/
def planItems (rows : List SummaryRow) : List PlanEntry → LoopAcc → LoopAcc
  | [], acc => acc
  | item :: rest, acc =>
    if item.screenId == "" then
      planItems rows rest { acc with errs := acc.errs ++ [PlanError.missingScreenId] }
    else
      let e1 := if item.screenId ∈ acc.seen then
        [PlanError.duplicateScreen item.screenId] else []
      let e2 := if (lookupRow rows item.screenId).isNone then
        [PlanError.unknownScreen item.screenId] else []
      let e3 := match lookupRow rows item.screenId with
        | some row =>
          (if item.route ≠ row.route then
            [PlanError.routeMismatch item.screenId item.route row.route] else []) ++
          (if item.complexity ≠ row.complexity then
            [PlanError.complexityMismatch item.screenId] else [])
        | none => []
      let e4 :=
        (if phaseOrder.contains item.phase then [] else
          [PlanError.invalidPhase item.screenId]) ++
        (if complexityOrder.contains item.complexity then [] else
          [PlanError.invalidComplexity item.screenId])
      let e5 := depErrors rows item.screenId item.dependencies []
      planItems rows rest
        { seen := acc.seen ++ [item.screenId]
          order := acc.order ++ [item.screenId]
          graph := mapSet acc.graph item.screenId item.dependencies
          errs := acc.errs ++ e1 ++ e2 ++ e3 ++ e4 ++ e5 }

/-- The validation result: `valid` plus the collected errors. -/
structure PlanValidation where
  valid : Bool
  errors : List PlanError
deriving DecidableEq, Repr

/-- `main` of `validate-execution-plan.js` (the file-existence guards of the
surrounding CLI are outside the model): reject an empty screens array
outright; run the per-entry loop; report manifests missing from the plan;
run cycle detection (at most one cycle error); recompute the canonical sort
of the plan's own entries and compare it with the actual order; the plan is
valid exactly when no error was collected. -/
def validatePlan (plan : ExecutionPlan) (rows : List SummaryRow) : PlanValidation :=
  if plan.screens.isEmpty then { valid := false, errors := [PlanError.emptyPlan] }
  else
    let acc := planItems rows plan.screens { seen := [], order := [], graph := [], errs := [] }
    let missing :=
      ((summaryIds rows).filter (fun sid => sid ∉ acc.seen)).map PlanError.missingScreen
    let cycErr := match detectCycle acc.graph with
      | some c => [PlanError.cycle c]
      | none => []
    let expected := (List.insertionSort planLe plan.screens).map PlanEntry.screenId
    let ordErr := if expected ≠ acc.order then [PlanError.orderMismatch] else []
    let errs := acc.errs ++ missing ++ cycErr ++ ordErr
    { valid := errs.isEmpty, errors := errs }

/-! ### Soundness of the depth-first cycle detection -/

/-- A closed, nonempty walk along graph edges: consecutive elements are
edges, the first and last element agree, and there are at least two
elements (so at least one edge). -/
def IsCycleWalk (g : Graph) (c : List String) : Prop :=
  c.Chain' (EdgeIn g) ∧ c.head? = c.getLast? ∧ 2 ≤ c.length

/-- Executable edge-chain check used to decide `IsCycleWalk`. -/
def chainB (g : Graph) : List String → Bool
  | [] => true
  | [_] => true
  | a :: b :: t => decide (EdgeIn g a b) && chainB g (b :: t)

/-- The executable chain check agrees with `List.Chain'`. -/
theorem chainB_iff (g : Graph) : ∀ l, chainB g l = true ↔ l.Chain' (EdgeIn g)
  | [] => by simp [chainB]
  | [a] => by simp [chainB]
  | a :: b :: t => by
    rw [List.chain'_cons, ← chainB_iff g (b :: t)]
    simp [chainB]

instance (g : Graph) (c : List String) : Decidable (IsCycleWalk g c) :=
  decidable_of_iff (chainB g c = true ∧ c.head? = c.getLast? ∧ 2 ≤ c.length)
    (by rw [chainB_iff]; exact Iff.rfl)

/-- Acyclicity witnessed by a rank function that strictly decreases along
every edge; `AcyclicGraph.not_isCycleWalk` shows no closed walk can then
exist. -/
def AcyclicGraph (g : Graph) : Prop :=
  ∃ rank : String → Nat, ∀ a b, EdgeIn g a b → rank b < rank a

/-- Every dependency delivered by a graph lookup is an edge. -/
theorem graphDeps_edge (g : Graph) (node : String) :
    ∀ b ∈ graphDeps g node, EdgeIn g node b := by
  intro b hb
  unfold graphDeps at hb
  cases h : g.find? (fun p => p.1 == node) with
  | none =>
    rw [h] at hb
    exact absurd hb (List.not_mem_nil b)
  | some p =>
    rw [h] at hb
    refine ⟨p, List.mem_of_find?_eq_some h, by simpa using List.find?_some h, ?_⟩
    simpa using hb

/-- Along a chain of edges the rank weakly decreases from head to last. -/
theorem chain_rank_le (g : Graph) (rank : String → Nat)
    (hr : ∀ a b, EdgeIn g a b → rank b < rank a) :
    ∀ (l : List String), l.Chain' (EdgeIn g) → ∀ a b, l.head? = some a →
      l.getLast? = some b → rank b ≤ rank a := by
  intro l
  induction l with
  | nil => intro _ a b h; simp at h
  | cons x t ih =>
    intro hc a b ha hb
    cases t with
    | nil =>
      simp only [List.head?_cons, Option.some.injEq] at ha
      simp only [List.getLast?_singleton, Option.some.injEq] at hb
      rw [← ha, ← hb]
    | cons y t2 =>
      have hxy := (List.chain'_cons.1 hc).1
      have hct := (List.chain'_cons.1 hc).2
      have hlast : (y :: t2).getLast? = some b := by
        rwa [List.getLast?_cons_cons] at hb
      have hle := ih hct y b rfl hlast
      simp only [List.head?_cons, Option.some.injEq] at ha
      subst ha
      exact le_trans hle (le_of_lt (hr x y hxy))

/-- An acyclic graph admits no closed walk. -/
theorem AcyclicGraph.not_isCycleWalk {g : Graph} (h : AcyclicGraph g)
    (c : List String) : ¬ IsCycleWalk g c := by
  obtain ⟨rank, hr⟩ := h
  rintro ⟨hchain, hhead, hlen⟩
  match c, hlen with
  | x :: y :: t, _ =>
    have hxy := (List.chain'_cons.1 hchain).1
    have hct := (List.chain'_cons.1 hchain).2
    have hlast : (y :: t).getLast? = some x := by
      rw [List.getLast?_cons_cons] at hhead
      simpa using hhead.symm
    have := chain_rank_le g rank hr (y :: t) hct y x rfl hlast
    have := hr x y hxy
    omega

/-- The closing step of the search: when the current dependency is on the
recursion stack, the trail from its first occurrence, closed with the
dependency, is a genuine closed walk. -/
theorem cycle_from_stack (g : Graph) (node dep : String) (trail : List String)
    (hchain : trail.Chain' (EdgeIn g))
    (hlast : trail.getLast? = some node)
    (hmem : dep ∈ trail)
    (hedge : EdgeIn g node dep) :
    IsCycleWalk g (trail.drop (trail.indexOf dep) ++ [dep]) := by
  have hi : trail.indexOf dep < trail.length := List.indexOf_lt_length.2 hmem
  have hlendrop : (trail.drop (trail.indexOf dep)).length = trail.length - trail.indexOf dep :=
    List.length_drop _ _
  have hne : trail.drop (trail.indexOf dep) ≠ [] := by
    apply List.ne_nil_of_length_pos
    omega
  have hhead : (trail.drop (trail.indexOf dep)).head? = some dep := by
    rw [List.head?_drop, List.getElem?_eq_getElem hi, List.getElem_indexOf hi]
  have hlastdrop : (trail.drop (trail.indexOf dep)).getLast? = some node := by
    conv at hlast => rw [← List.take_append_drop (trail.indexOf dep) trail]
    rwa [List.getLast?_append_of_ne_nil _ hne] at hlast
  refine ⟨?_, ?_, ?_⟩
  · apply List.chain'_append.2
    refine ⟨hchain.drop _, List.chain'_singleton dep, ?_⟩
    intro x hx y hy
    simp only [List.head?_cons, Option.mem_def, Option.some.injEq] at hy
    rw [hlastdrop] at hx
    simp only [Option.mem_def, Option.some.injEq] at hx
    subst hx
    subst hy
    exact hedge
  · rw [List.getLast?_concat]
    cases hd : trail.drop (trail.indexOf dep) with
    | nil => exact absurd hd hne
    | cons z zs =>
      rw [hd] at hhead
      simp only [List.head?_cons, Option.some.injEq] at hhead
      subst hhead
      simp
  · rw [List.length_append]
    simp only [List.length_singleton]
    omega

/-- The contract a nested `dfs` call must satisfy for the dependency loop to
be sound: on a state whose trail extends to the callee by one edge-connected
node and whose stack elements all lie on the trail, any cycle returned is a
closed walk, and a cycle-free return restores trail and stack exactly. -/
def DfsCallSound (g : Graph)
    (recCall : String → DfsState → Option (List String) × DfsState) : Prop :=
  ∀ dep st, (st.trail ++ [dep]).Chain' (EdgeIn g) →
    (∀ x ∈ st.stack, x ∈ st.trail) →
    (∀ c st2, recCall dep st = (some c, st2) → IsCycleWalk g c) ∧
    (∀ st2, recCall dep st = (none, st2) → st2.trail = st.trail ∧ st2.stack = st.stack)

/-- Soundness of the dependency loop, given a sound nested call: any
returned cycle is a closed walk, and a cycle-free pass leaves trail and
stack unchanged. -/
theorem dfsDeps_sound (g : Graph)
    (recCall : String → DfsState → Option (List String) × DfsState)
    (hrec : DfsCallSound g recCall) (node : String) :
    ∀ deps, (∀ d ∈ deps, EdgeIn g node d) →
      ∀ st, st.trail.Chain' (EdgeIn g) → st.trail.getLast? = some node →
      (∀ x ∈ st.stack, x ∈ st.trail) →
      (∀ c st2, dfsDeps recCall deps st = (some c, st2) → IsCycleWalk g c) ∧
      (∀ st2, dfsDeps recCall deps st = (none, st2) →
        st2.trail = st.trail ∧ st2.stack = st.stack) := by
  intro deps
  induction deps with
  | nil =>
    intro _ st _ _ _
    constructor
    · intro c st2 heq
      simp [dfsDeps] at heq
    · intro st2 heq
      simp only [dfsDeps, Prod.mk.injEq] at heq
      rw [← heq.2]
      exact ⟨rfl, rfl⟩
  | cons dep rest ih =>
    intro hd st hchain hlast hstack
    have hedge : EdgeIn g node dep := hd dep (List.mem_cons_self dep rest)
    have hdrest : ∀ d ∈ rest, EdgeIn g node d :=
      fun d hdm => hd d (List.mem_cons_of_mem _ hdm)
    by_cases hv : dep ∈ st.visited
    · by_cases hs : dep ∈ st.stack
      · constructor
        · intro c st2 heq
          simp only [dfsDeps, if_pos hv, if_pos hs, Prod.mk.injEq,
            Option.some.injEq] at heq
          rw [← heq.1]
          exact cycle_from_stack g node dep st.trail hchain hlast (hstack dep hs) hedge
        · intro st2 heq
          simp [dfsDeps, if_pos hv, if_pos hs] at heq
      · have hrest := ih hdrest st hchain hlast hstack
        constructor
        · intro c st2 heq
          simp only [dfsDeps, if_pos hv, if_neg hs] at heq
          exact hrest.1 c st2 heq
        · intro st2 heq
          simp only [dfsDeps, if_pos hv, if_neg hs] at heq
          exact hrest.2 st2 heq
    · have hpre : (st.trail ++ [dep]).Chain' (EdgeIn g) := by
        apply List.chain'_append.2
        refine ⟨hchain, List.chain'_singleton dep, ?_⟩
        intro x hx y hy
        rw [hlast] at hx
        simp only [Option.mem_def, Option.some.injEq] at hx
        simp only [List.head?_cons, Option.mem_def, Option.some.injEq] at hy
        subst hx
        subst hy
        exact hedge
      obtain ⟨hrs, hrn⟩ := hrec dep st hpre hstack
      cases hres : recCall dep st with
      | mk o st3 =>
        cases o with
        | some c2 =>
          constructor
          · intro c st2 heq
            simp only [dfsDeps, if_neg hv, hres, Prod.mk.injEq,
              Option.some.injEq] at heq
            rw [← heq.1]
            exact hrs c2 st3 hres
          · intro st2 heq
            simp [dfsDeps, if_neg hv, hres] at heq
        | none =>
          obtain ⟨ht3, hs3⟩ := hrn st3 hres
          have hrest := ih hdrest st3 (ht3 ▸ hchain) (ht3 ▸ hlast)
            (fun x hx => ht3 ▸ hstack x (hs3 ▸ hx))
          constructor
          · intro c st2 heq
            simp only [dfsDeps, if_neg hv, hres] at heq
            exact hrest.1 c st2 heq
          · intro st2 heq
            simp only [dfsDeps, if_neg hv, hres] at heq
            obtain ⟨h1, h2⟩ := hrest.2 st2 heq
            exact ⟨h1.trans ht3, h2.trans hs3⟩

/-- Soundness of `dfsNode` at every fuel value. -/
theorem dfsNode_sound (g : Graph) :
    ∀ fuel, DfsCallSound g (fun n st => dfsNode g fuel n st) := by
  intro fuel
  induction fuel with
  | zero =>
    intro node st _ _
    constructor
    · intro c st2 heq
      simp [dfsNode] at heq
    · intro st2 heq
      simp only [dfsNode, Prod.mk.injEq] at heq
      rw [← heq.2]
      exact ⟨rfl, rfl⟩
  | succ f ih =>
    intro node st hchain hstack
    set st1 : DfsState :=
      { visited := node :: st.visited, stack := node :: st.stack,
        trail := st.trail ++ [node] } with hst1
    have h1 : st1.trail.Chain' (EdgeIn g) := hchain
    have h2 : st1.trail.getLast? = some node := List.getLast?_concat _
    have h3 : ∀ x ∈ st1.stack, x ∈ st1.trail := by
      intro x hx
      rcases List.mem_cons.1 hx with h | h
      · subst h
        exact List.mem_append_right _ (List.mem_singleton.2 rfl)
      · exact List.mem_append_left _ (hstack x h)
    obtain ⟨hds, hdn⟩ := dfsDeps_sound g _ ih node (graphDeps g node)
      (graphDeps_edge g node) st1 h1 h2 h3
    cases hres : dfsDeps (fun dep st2 => dfsNode g f dep st2) (graphDeps g node) st1 with
    | mk o st3 =>
      cases o with
      | some c2 =>
        constructor
        · intro c st2 heq
          simp only [dfsNode, ← hst1, hres, Prod.mk.injEq, Option.some.injEq] at heq
          rw [← heq.1]
          exact hds c2 st3 hres
        · intro st2 heq
          simp [dfsNode, ← hst1, hres] at heq
      | none =>
        obtain ⟨ht3, hs3⟩ := hdn st3 hres
        constructor
        · intro c st2 heq
          simp [dfsNode, ← hst1, hres] at heq
        · intro st2 heq
          simp only [dfsNode, ← hst1, hres, Prod.mk.injEq] at heq
          rw [← heq.2]
          constructor
          · show st3.trail.dropLast = st.trail
            rw [ht3]
            show (st.trail ++ [node]).dropLast = st.trail
            exact List.dropLast_concat
          · show st3.stack.erase node = st.stack
            rw [hs3]
            show (node :: st.stack).erase node = st.stack
            exact List.erase_cons_head node st.stack

/-- Soundness of the top-level loop of `detectCycle`. -/
theorem detectGo_sound (g : Graph) (fuel : Nat) :
    ∀ keys st, st.trail = [] → st.stack = [] →
      ∀ c, detectGo g fuel keys st = some c → IsCycleWalk g c := by
  intro keys
  induction keys with
  | nil =>
    intro st _ _ c hc
    simp [detectGo] at hc
  | cons node rest ih =>
    intro st ht hs c hc
    unfold detectGo at hc
    by_cases hv : node ∈ st.visited
    · rw [if_pos hv] at hc
      exact ih st ht hs c hc
    · rw [if_neg hv] at hc
      have hchain : (st.trail ++ [node]).Chain' (EdgeIn g) := by
        rw [ht]
        exact List.chain'_singleton node
      have hstack : ∀ x ∈ st.stack, x ∈ st.trail := by
        rw [hs]
        intro x hx
        exact absurd hx (List.not_mem_nil x)
      obtain ⟨hns, hnn⟩ := dfsNode_sound g fuel node st hchain hstack
      cases hres : dfsNode g fuel node st with
      | mk o st2 =>
        rw [hres] at hc
        cases o with
        | some c2 =>
          simp only [Option.some.injEq] at hc
          rw [← hc]
          exact hns c2 st2 hres
        | none =>
          exact ih st2 ((hnn st2 hres).1.trans ht) ((hnn st2 hres).2.trans hs) c hc

/-- Any cycle reported by `detectCycle` is a genuine closed walk in the
graph. -/
theorem detectCycle_sound (g : Graph) (c : List String)
    (h : detectCycle g = some c) : IsCycleWalk g c :=
  detectGo_sound g (graphNodeCount g + 1) (g.map Prod.fst)
    { visited := [], stack := [], trail := [] } rfl rfl c h

/-- On an acyclic graph, `detectCycle` reports nothing. -/
theorem AcyclicGraph.detectCycle_eq_none {g : Graph} (h : AcyclicGraph g) :
    detectCycle g = none := by
  cases hd : detectCycle g with
  | none => rfl
  | some c => exact absurd (detectCycle_sound g c hd) (h.not_isCycleWalk c)

/-! ### Builder output validates cleanly: supporting lemmas -/

/-- The graph pair contributed by one plan entry. -/
def entryPair (e : PlanEntry) : String × List String := (e.screenId, e.dependencies)

/-- The dependency graph derived directly from a manifest set, the graph the
builder embeds into its plan. -/
def derivedGraph (ms : List Manifest) : Graph :=
  ms.map (fun m => (m.screenId, depsOf ms m))

/-- Edges only depend on the set of graph pairs, so permuting the pair list
preserves them. -/
theorem EdgeIn_of_perm {g g2 : Graph} (h : g.Perm g2) {a b : String}
    (he : EdgeIn g a b) : EdgeIn g2 a b := by
  obtain ⟨p, hp, h1, h2⟩ := he
  exact ⟨p, h.mem_iff.1 hp, h1, h2⟩

/-- Acyclicity transfers along permutations of the pair list. -/
theorem AcyclicGraph.of_perm {g g2 : Graph} (hp : g.Perm g2)
    (h : AcyclicGraph g) : AcyclicGraph g2 := by
  obtain ⟨rank, hr⟩ := h
  exact ⟨rank, fun a b he => hr a b (EdgeIn_of_perm hp.symm he)⟩

/-- A lookup in the summary map succeeds for every present id. -/
theorem lookupRow_isSome (rows : List SummaryRow) (id : String)
    (h : id ∈ rows.map SummaryRow.screenId) : (lookupRow rows id).isSome := by
  obtain ⟨r, hr, hrid⟩ := List.mem_map.1 h
  unfold lookupRow
  apply List.find?_isSome.2
  exact ⟨r, List.mem_reverse.2 hr, by simp [hrid]⟩

/-- With pairwise distinct ids, the summary lookup of a row's own id returns
exactly that row. -/
theorem lookupRow_eq_of_nodup (rows : List SummaryRow)
    (hn : (rows.map SummaryRow.screenId).Nodup) (r : SummaryRow) (hr : r ∈ rows) :
    lookupRow rows r.screenId = some r := by
  unfold lookupRow
  cases hf : rows.reverse.find? (fun s => s.screenId == r.screenId) with
  | none =>
    exfalso
    have : (rows.reverse.find? (fun s => s.screenId == r.screenId)).isSome :=
      List.find?_isSome.2 ⟨r, List.mem_reverse.2 hr, by simp⟩
    rw [hf] at this
    exact absurd this (by simp)
  | some x =>
    have hx : x ∈ rows := List.mem_reverse.1 (List.mem_of_find?_eq_some hf)
    have hpx : x.screenId = r.screenId := by simpa using List.find?_some hf
    rw [List.inj_on_of_nodup_map hn hx hr hpx]

/-- The dependency-check loop reports nothing on a clean dependency list. -/
theorem depErrors_eq_nil (rows : List SummaryRow) (id : String) :
    ∀ (deps depSet : List String), deps.Nodup → (∀ d ∈ deps, d ∉ depSet) →
      (∀ d ∈ deps, d ≠ id) → (∀ d ∈ deps, (lookupRow rows d).isSome) →
      depErrors rows id deps depSet = [] := by
  intro deps
  induction deps with
  | nil => intro _ _ _ _ _; rfl
  | cons d rest ih =>
    intro depSet hnd hset hid hsome
    have h1 : d ∉ depSet := hset d (List.mem_cons_self d rest)
    have h2 : (d == id) = false :=
      beq_eq_false_iff_ne.2 (hid d (List.mem_cons_self d rest))
    have h3 : (lookupRow rows d).isNone = false := by
      have := hsome d (List.mem_cons_self d rest)
      simp [Option.isNone_eq_false_iff]
      exact this
    show (if d ∈ depSet then _ else []) ++ (if (d == id) = true then _ else []) ++
      (if (lookupRow rows d).isNone = true then _ else []) ++ _ = []
    rw [if_neg h1, if_neg (by simp [h2]), if_neg (by simp [h3])]
    simp only [List.nil_append]
    apply ih (d :: depSet) (List.nodup_cons.1 hnd).2
    · intro x hx
      simp only [List.mem_cons, not_or]
      exact ⟨fun he => ((List.nodup_cons.1 hnd).1 (he ▸ hx)).elim,
        hset x (List.mem_cons_of_mem _ hx)⟩
    · exact fun x hx => hid x (List.mem_cons_of_mem _ hx)
    · exact fun x hx => hsome x (List.mem_cons_of_mem _ hx)

/-- A fresh key is appended by `mapSet`. -/
theorem mapSet_fresh (g : Graph) (k : String) (v : List String)
    (h : ∀ p ∈ g, p.1 ≠ k) : mapSet g k v = g ++ [(k, v)] := by
  have hc : g.any (fun p => p.1 == k) = false := by
    rw [List.any_eq_false]
    intro p hp
    simpa using h p hp
  simp [mapSet, hc]

/-- An entry the validator loop accepts without complaint. -/
def GoodEntry (rows : List SummaryRow) (e : PlanEntry) : Prop :=
  e.screenId ≠ "" ∧
  lookupRow rows e.screenId =
    some { screenId := e.screenId, route := e.route, complexity := e.complexity } ∧
  e.dependencies.Nodup ∧
  ∀ d ∈ e.dependencies, d ≠ e.screenId ∧ (lookupRow rows d).isSome

/-- Every phase value passes the validity check. -/
theorem mem_phaseOrder (p : Phase) : p ∈ phaseOrder := by
  cases p <;> simp [phaseOrder]

/-- Every complexity value passes the validity check. -/
theorem mem_complexityOrder (c : Complexity) : c ∈ complexityOrder := by
  cases c <;> simp [complexityOrder]

/-- One loop step over a good, unseen entry adds no error and records the
entry. -/
theorem planItems_cons_good (rows : List SummaryRow) (e : PlanEntry)
    (rest : List PlanEntry) (acc : LoopAcc) (he : GoodEntry rows e)
    (hseen : e.screenId ∉ acc.seen)
    (hgraphfresh : ∀ p ∈ acc.graph, p.1 ≠ e.screenId) :
    planItems rows (e :: rest) acc = planItems rows rest
      { seen := acc.seen ++ [e.screenId]
        order := acc.order ++ [e.screenId]
        graph := acc.graph ++ [entryPair e]
        errs := acc.errs } := by
  obtain ⟨hid, hrow, hdepnd, hdep⟩ := he
  have hbeq : (e.screenId == "") = false := beq_eq_false_iff_ne.2 hid
  have hdeperr : depErrors rows e.screenId e.dependencies [] = [] := by
    apply depErrors_eq_nil rows e.screenId e.dependencies [] hdepnd
    · intro d _
      exact List.not_mem_nil d
    · exact fun d hd => (hdep d hd).1
    · exact fun d hd => (hdep d hd).2
  rw [planItems, if_neg (by simp [hbeq])]
  rw [mapSet_fresh acc.graph e.screenId e.dependencies hgraphfresh]
  simp [hseen, hrow, hdeperr, mem_phaseOrder, mem_complexityOrder, entryPair]

/-- The per-entry loop over a list of good, pairwise distinct, unseen
entries reports no error and records exactly the entries' ids and graph
pairs, in order. -/
theorem planItems_clean (rows : List SummaryRow) :
    ∀ (L : List PlanEntry) (acc : LoopAcc), (∀ e ∈ L, GoodEntry rows e) →
      (L.map PlanEntry.screenId).Nodup →
      (∀ e ∈ L, e.screenId ∉ acc.seen) →
      acc.graph.map Prod.fst = acc.seen →
      planItems rows L acc =
        { seen := acc.seen ++ L.map PlanEntry.screenId
          order := acc.order ++ L.map PlanEntry.screenId
          graph := acc.graph ++ L.map entryPair
          errs := acc.errs } := by
  intro L
  induction L with
  | nil =>
    intro acc _ _ _ _
    simp [planItems]
  | cons e rest ih =>
    intro acc hgood hnodup hfresh hkeys
    have hnd2 := List.nodup_cons.1
      (show (e.screenId :: rest.map PlanEntry.screenId).Nodup by simpa using hnodup)
    have hseen : e.screenId ∉ acc.seen := hfresh e (List.mem_cons_self e rest)
    have hgraphfresh : ∀ p ∈ acc.graph, p.1 ≠ e.screenId := by
      intro p hp hpe
      exact hseen (hkeys ▸ List.mem_map.2 ⟨p, hp, hpe⟩)
    rw [planItems_cons_good rows e rest acc (hgood e (List.mem_cons_self e rest))
      hseen hgraphfresh]
    rw [ih _ (fun x hx => hgood x (List.mem_cons_of_mem _ hx)) hnd2.2 ?fr ?ks]
    case fr =>
      intro x hx
      simp only [List.mem_append, List.mem_singleton, not_or]
      refine ⟨fun hm => hfresh x (List.mem_cons_of_mem _ hx) hm, fun hx2 => ?_⟩
      exact hnd2.1 (hx2 ▸ List.mem_map.2 ⟨x, hx, rfl⟩)
    case ks =>
      show (acc.graph ++ [entryPair e]).map Prod.fst = acc.seen ++ [e.screenId]
      rw [List.map_append, hkeys]
      rfl
    simp

/-- Every dependency the builder derives names another manifest's screenId,
never the owning screen itself. -/
theorem depsOf_spec (ms : List Manifest) (m : Manifest) :
    ∀ d ∈ depsOf ms m, d ≠ m.screenId ∧ d ∈ ms.map Manifest.screenId := by
  intro d hd
  have hraw : d ∈ rawDeps ms m := by
    have h1 : d ∈ (rawDeps ms m).dedup := (List.mem_insertionSort strLe).1 hd
    exact List.mem_dedup.1 h1
  obtain ⟨c, _, hc⟩ := List.mem_filterMap.1 hraw
  cases hto : c.actionTo with
  | none => simp only [hto] at hc; exact absurd hc (by simp)
  | some target =>
    simp only [hto] at hc
    cases hby : byRoute ms target with
    | none => simp only [hby] at hc; exact absurd hc (by simp)
    | some dep =>
      simp only [hby] at hc
      by_cases hd2 : (dep == m.screenId) = true
      · rw [if_pos hd2] at hc
        exact absurd hc (by simp)
      · rw [if_neg hd2] at hc
        have hdd : dep = d := by simpa using hc
        subst hdd
        refine ⟨by simpa using hd2, ?_⟩
        unfold byRoute at hby
        cases hf : ms.reverse.find? (fun m2 => m2.route == target) with
        | none => rw [hf] at hby; exact absurd hby (by simp)
        | some m2 =>
          rw [hf] at hby
          have hm2 : m2 ∈ ms := List.mem_reverse.1 (List.mem_of_find?_eq_some hf)
          have : m2.screenId = dep := by simpa using hby
          exact this ▸ List.mem_map.2 ⟨m2, hm2, rfl⟩

/-- The ids of the summary rows are the ids of the manifests. -/
theorem mkSummary_ids (ms : List Manifest) :
    (mkSummary ms).map SummaryRow.screenId = ms.map Manifest.screenId := by
  simp [mkSummary]

/-- The ids of the derived entries are the ids of the manifests. -/
theorem entries_ids (ms : List Manifest) :
    ((ms.map (entryOf ms)).map PlanEntry.screenId) = ms.map Manifest.screenId := by
  simp [entryOf]

/-- Every entry the builder derives from a well-formed manifest set passes
all per-entry validator checks. -/
theorem entryOf_good (ms : List Manifest)
    (hids : (ms.map Manifest.screenId).Nodup)
    (hempty : ∀ m ∈ ms, m.screenId ≠ "")
    (m : Manifest) (hm : m ∈ ms) : GoodEntry (mkSummary ms) (entryOf ms m) := by
  have hrowsnodup : ((mkSummary ms).map SummaryRow.screenId).Nodup := by
    rw [mkSummary_ids]; exact hids
  refine ⟨hempty m hm, ?_, ?_, ?_⟩
  · have hrow : (⟨m.screenId, m.route, m.complexity⟩ : SummaryRow) ∈ mkSummary ms :=
      List.mem_map.2 ⟨m, hm, rfl⟩
    exact lookupRow_eq_of_nodup (mkSummary ms) hrowsnodup _ hrow
  · show (depsOf ms m).Nodup
    exact ((List.perm_insertionSort strLe (rawDeps ms m).dedup).symm).nodup
      (List.nodup_dedup _)
  · intro d hd
    obtain ⟨hne, hmem⟩ := depsOf_spec ms m d hd
    refine ⟨hne, lookupRow_isSome (mkSummary ms) d ?_⟩
    rw [mkSummary_ids]
    exact hmem

/-- C4 counterexample: the empty manifest set has an acyclic derived graph,
yet build followed by validate reports the plan invalid (the validator
rejects an empty screens array), so the claim fails as universally stated. -/
theorem c4_counterexample :
    AcyclicGraph (derivedGraph ([] : List Manifest)) ∧
    (validatePlan (makeExecutionPlan []) (mkSummary [])).valid = false := by
  constructor
  · refine ⟨fun _ => 0, fun a b he => ?_⟩
    obtain ⟨p, hp, _, _⟩ := he
    exact absurd hp (List.not_mem_nil p)
  · rfl

/-- C4 (amended): for every non-empty manifest set that satisfies the
manifest invariants (pairwise distinct, non-empty screenIds) and whose
derived dependency graph is acyclic, `makeExecutionPlan` followed
immediately by the execution-plan validator on its own output (against the
summary derived from the same manifests) reports valid with an empty error
list. -/
theorem c4_amended (ms : List Manifest) (hne : ms ≠ [])
    (hids : (ms.map Manifest.screenId).Nodup)
    (hempty : ∀ m ∈ ms, m.screenId ≠ "")
    (hacyc : AcyclicGraph (derivedGraph ms)) :
    validatePlan (makeExecutionPlan ms) (mkSummary ms) =
      { valid := true, errors := [] } := by
  have hscreens : (makeExecutionPlan ms).screens =
      List.insertionSort planLe (ms.map (entryOf ms)) := rfl
  have hperm : ((makeExecutionPlan ms).screens).Perm (ms.map (entryOf ms)) := by
    rw [hscreens]; exact List.perm_insertionSort planLe _
  have hidperm : ((makeExecutionPlan ms).screens.map PlanEntry.screenId).Perm
      (ms.map Manifest.screenId) := by
    have := hperm.map PlanEntry.screenId
    rwa [entries_ids] at this
  have hplanids : ((makeExecutionPlan ms).screens.map PlanEntry.screenId).Nodup :=
    hidperm.symm.nodup hids
  have hnotempty : ¬ ((makeExecutionPlan ms).screens.isEmpty = true) := by
    rw [List.isEmpty_iff]
    intro h0
    apply hne
    have := hperm.length_eq
    rw [h0] at this
    simp only [List.length_nil, List.length_map] at this
    exact List.eq_nil_of_length_eq_zero this.symm
  have hgoods : ∀ e ∈ (makeExecutionPlan ms).screens, GoodEntry (mkSummary ms) e := by
    intro e he
    obtain ⟨m, hm, rfl⟩ := List.mem_map.1 (hperm.mem_iff.1 he)
    exact entryOf_good ms hids hempty m hm
  have hclean := planItems_clean (mkSummary ms) (makeExecutionPlan ms).screens
    { seen := [], order := [], graph := [], errs := [] } hgoods hplanids
    (fun e _ => List.not_mem_nil e.screenId) rfl
  have hmissing : ((summaryIds (mkSummary ms)).filter
      (fun sid => sid ∉ ([] : List String) ++
        (makeExecutionPlan ms).screens.map PlanEntry.screenId)) = [] := by
    rw [List.filter_eq_nil_iff]
    intro sid hsid
    have h1 : sid ∈ (mkSummary ms).map SummaryRow.screenId :=
      List.mem_dedup.1 ((List.mem_insertionSort strLe).1 hsid)
    rw [mkSummary_ids] at h1
    have h2 : sid ∈ (makeExecutionPlan ms).screens.map PlanEntry.screenId :=
      hidperm.mem_iff.2 h1
    simp [h2]
  have hgperm : (([] : Graph) ++
      (makeExecutionPlan ms).screens.map entryPair).Perm (derivedGraph ms) := by
    rw [List.nil_append]
    have h1 := hperm.map entryPair
    have h2 : (ms.map (entryOf ms)).map entryPair = derivedGraph ms := by
      simp [entryPair, entryOf, derivedGraph]
    rwa [h2] at h1
  have hcyc : detectCycle (([] : Graph) ++
      (makeExecutionPlan ms).screens.map entryPair) = none :=
    AcyclicGraph.detectCycle_eq_none (hacyc.of_perm hgperm.symm)
  have hsorted : ((makeExecutionPlan ms).screens).Sorted planLe := by
    rw [hscreens]
    exact List.sorted_insertionSort planLe _
  have hord : (List.insertionSort planLe
      ((makeExecutionPlan ms).screens)).map PlanEntry.screenId =
      ([] : List String) ++ (makeExecutionPlan ms).screens.map PlanEntry.screenId := by
    rw [hsorted.insertionSort_eq, List.nil_append]
  unfold validatePlan
  rw [if_neg hnotempty]
  simp only [hclean, hmissing, hcyc, hord]
  simp

/-- The single-manifest batch used to witness the amended C4. -/
def manifestHome : Manifest :=
  { screenId := "home", route := "/", complexity := Complexity.low,
    interactiveContracts := [] }

/-- C4 witness: the amended statement discharged on a concrete one-screen
manifest set with an explicit rank function. -/
theorem c4_amended_witness :
    validatePlan (makeExecutionPlan [manifestHome]) (mkSummary [manifestHome]) =
      { valid := true, errors := [] } := by
  apply c4_amended
  · intro h
    exact absurd h (by decide)
  · decide
  · decide
  · refine ⟨fun _ => 0, fun a b he => ?_⟩
    obtain ⟨p, hp, _, h2⟩ := he
    have hg : derivedGraph [manifestHome] = [("home", [])] := by decide
    rw [hg] at hp
    have : p = ("home", []) := List.mem_singleton.1 hp
    rw [this] at h2
    exact absurd h2 (List.not_mem_nil b)

/-! ### The builder never rejects (C3) and cycle reporting (C7) -/

/-- The dependency graph embedded in a plan's entries. -/
def planGraphOf (plan : ExecutionPlan) : Graph := plan.screens.map entryPair

/-- A list screen whose links navigate to the detail screen's route. -/
def manifestA : Manifest :=
  { screenId := "a", route := "/a", complexity := Complexity.low,
    interactiveContracts := [{ actionTo := some "/b" }] }

/-- A detail screen whose links navigate back to the list screen's route. -/
def manifestB : Manifest :=
  { screenId := "b", route := "/b", complexity := Complexity.low,
    interactiveContracts := [{ actionTo := some "/a" }] }

/-- C3 counterexample: for two screens whose interactive contracts navigate
to each other's routes, `makeExecutionPlan` does not reject; it returns a
plan containing both screens whose embedded dependency graph has the closed
walk a, b, a. -/
theorem c3_counterexample :
    ((makeExecutionPlan [manifestA, manifestB]).screens.map PlanEntry.screenId =
      ["a", "b"]) ∧
    IsCycleWalk (planGraphOf (makeExecutionPlan [manifestA, manifestB]))
      ["a", "b", "a"] := by
  decide

/-- C3 (amended): the builder never rejects any input: for every manifest
set it returns a plan whose entries are exactly the derived entries of the
input manifests (cyclic dependency graphs included); cycle errors are raised
only later, by plan validation. -/
theorem c3_amended (ms : List Manifest) :
    ((makeExecutionPlan ms).screens.map PlanEntry.screenId).Perm
      (ms.map Manifest.screenId) ∧
    ∀ m ∈ ms, entryOf ms m ∈ (makeExecutionPlan ms).screens := by
  constructor
  · have hperm := (List.perm_insertionSort planLe (ms.map (entryOf ms))).map
      PlanEntry.screenId
    rwa [entries_ids] at hperm
  · intro m hm
    exact (List.mem_insertionSort planLe).2 (List.mem_map.2 ⟨m, hm, rfl⟩)

/-- C3 witness: the amended statement evaluated on the mutually navigating
pair — the plan is produced and contains both screens. -/
theorem c3_amended_witness :
    ((makeExecutionPlan [manifestA, manifestB]).screens.map PlanEntry.screenId).Perm
      ([manifestA, manifestB].map Manifest.screenId) ∧
    entryOf [manifestA, manifestB] manifestA ∈
      (makeExecutionPlan [manifestA, manifestB]).screens :=
  ⟨(c3_amended [manifestA, manifestB]).1,
   (c3_amended [manifestA, manifestB]).2 manifestA (by decide)⟩

/-- Recognizes the cycle error among the validator's errors. -/
def isCycleError (e : PlanError) : Bool :=
  match e with
  | PlanError.cycle _ => true
  | _ => false

/-- The dependency-check loop never emits a cycle error. -/
theorem countP_isCycleError_depErrors (rows : List SummaryRow) (id : String) :
    ∀ deps depSet, ((depErrors rows id deps depSet).countP isCycleError) = 0 := by
  intro deps
  induction deps with
  | nil => intro _; rfl
  | cons d rest ih =>
    intro depSet
    simp only [depErrors, List.countP_append, ih]
    split <;> split <;> split <;> simp [isCycleError]

/-- The per-entry loop never emits a cycle error. -/
theorem countP_isCycleError_planItems (rows : List SummaryRow) :
    ∀ (L : List PlanEntry) (acc : LoopAcc),
      ((planItems rows L acc).errs).countP isCycleError =
        acc.errs.countP isCycleError := by
  intro L
  induction L with
  | nil => intro _; rfl
  | cons item rest ih =>
    intro acc
    rw [planItems]
    by_cases hid : (item.screenId == "") = true
    · rw [if_pos (by simp [hid])]
      rw [ih]
      simp [isCycleError]
    · rw [if_neg (by simp [hid])]
      rw [ih]
      simp only [List.countP_append]
      rw [countP_isCycleError_depErrors]
      cases hlk : lookupRow rows item.screenId with
      | none =>
        simp only [hlk]
        split_ifs <;> simp [isCycleError]
      | some row =>
        simp only [hlk]
        split_ifs <;> simp [isCycleError]

/-- The plan entries of the two-screen cyclic example. -/
def planEntryA : PlanEntry :=
  { screenId := "a", route := "/a", complexity := Complexity.low,
    phase := Phase.standard, priority := 100, dependencies := ["b"] }

/-- The second plan entry of the two-screen cyclic example. -/
def planEntryB : PlanEntry :=
  { screenId := "b", route := "/b", complexity := Complexity.low,
    phase := Phase.standard, priority := 100, dependencies := ["a"] }

/-- The two-screen cyclic plan. -/
def planAB : ExecutionPlan :=
  { planVersion := "1.0", orderingRules := [], screens := [planEntryA, planEntryB] }

/-- The summary rows matching the two-screen cyclic plan. -/
def rowsAB : List SummaryRow :=
  [{ screenId := "a", route := "/a", complexity := Complexity.low },
   { screenId := "b", route := "/b", complexity := Complexity.low }]

/-- C7: on the plan with dependencies a to b and b to a, validation reports
exactly one error, the cycle [a, b, a] found by the depth-first traversal in
insertion order; and in general a single validation pass reports at most one
cycle error, whatever the plan and summary are. -/
theorem c7_cycle_reporting :
    (validatePlan planAB rowsAB).errors = [PlanError.cycle ["a", "b", "a"]] ∧
    ∀ (plan : ExecutionPlan) (rows : List SummaryRow),
      ((validatePlan plan rows).errors).countP isCycleError ≤ 1 := by
  constructor
  · decide
  · intro plan rows
    unfold validatePlan
    by_cases hempty : plan.screens.isEmpty = true
    · rw [if_pos hempty]
      simp [isCycleError]
    · rw [if_neg hempty]
      simp only [List.countP_append]
      have h1 := countP_isCycleError_planItems rows plan.screens
        { seen := [], order := [], graph := [], errs := [] }
      rw [h1]
      have h2 : (((summaryIds rows).filter (fun sid => sid ∉
          (planItems rows plan.screens
            { seen := [], order := [], graph := [], errs := [] }).seen)).map
          PlanError.missingScreen).countP isCycleError = 0 := by
        rw [List.countP_eq_zero]
        intro e he
        obtain ⟨sid, _, rfl⟩ := List.mem_map.1 he
        simp [isCycleError]
      rw [h2]
      cases hdc : detectCycle (planItems rows plan.screens
          { seen := [], order := [], graph := [], errs := [] }).graph with
      | none =>
        simp only [hdc]
        split_ifs <;> simp [isCycleError]
      | some c =>
        simp only [hdc]
        split_ifs <;> simp [isCycleError]

/-! ### RemediationController (the workflow script's while loop) -/

/-- The remediation policy knobs read from `workflow.config.json`. -/
structure RemediationPolicy where
  minPassRate : ℚ
  maxNeedsReviewRate : ℚ
  requireZeroCriticalFailures : Bool
  strictPassRequired : Bool
deriving DecidableEq, Repr

/-- The per-cycle accept decision of the workflow script: in strict mode
accept exactly when nothing failed and nothing needs review; in threshold
mode compare the pass and review rates against the configured bounds (the
total is clamped to at least 1 as in the source) and optionally require zero
critical failures. -/
def decisionFor (s : BatchSummary) (p : RemediationPolicy) : Bool :=
  let total : Nat := max 1 (if s.total = 0 then 1 else s.total)
  let passRate : ℚ := (s.pass : ℚ) / (total : ℚ)
  let reviewRate : ℚ := (s.needsReview : ℚ) / (total : ℚ)
  let thresholdOk : Bool :=
    decide (p.minPassRate ≤ passRate) && decide (reviewRate ≤ p.maxNeedsReviewRate) &&
      (!p.requireZeroCriticalFailures || s.criticalFailures == 0)
  let strictOk : Bool := (s.fail == 0) && (s.needsReview == 0)
  if p.strictPassRequired then strictOk else thresholdOk

/-- Terminal states of the remediation loop. -/
inductive LoopOutcome where
  | ACCEPTED
  | EXHAUSTED
deriving DecidableEq, Repr

/-- Result of a remediation run: terminal state, last cycle executed, and
process exit code. -/
structure LoopResult where
  outcome : LoopOutcome
  lastCycle : Nat
  exitCode : Nat
deriving DecidableEq, Repr

/-- The `while [ cycle -le max_cycles ]` loop: run the current cycle's
validation; accept stops immediately with exit 0; otherwise increment; when
the bound is passed, exit 1 exhausted. `remaining` counts the loop
iterations still allowed (`maxCycles - cycle + 1`). -/
def loopGo (accepts : Nat → Bool) : Nat → Nat → LoopResult
  | cycle, 0 => { outcome := LoopOutcome.EXHAUSTED, lastCycle := cycle - 1, exitCode := 1 }
  | cycle, remaining + 1 =>
    if accepts cycle then
      { outcome := LoopOutcome.ACCEPTED, lastCycle := cycle, exitCode := 0 }
    else loopGo accepts (cycle + 1) remaining

/-- The whole remediation run from cycle 1: each cycle obtains a fresh batch
summary from the external build/capture stage and applies the policy. -/
def remediationRun (summaries : Nat → BatchSummary) (p : RemediationPolicy)
    (maxCycles : Nat) : LoopResult :=
  loopGo (fun c => decisionFor (summaries c) p) 1 maxCycles

/-- C8: for every batch summary with at least one screen and every policy,
the accept decision is: under strict mode, accept iff fail = 0 and
needsReview = 0; otherwise accept iff the pass rate reaches minPassRate, the
review rate stays within maxNeedsReviewRate, and criticalFailures = 0
whenever requireZeroCriticalFailures is set. -/
theorem c8_decision (s : BatchSummary) (p : RemediationPolicy) (h : 1 ≤ s.total) :
    decisionFor s p = true ↔
      (if p.strictPassRequired then s.fail = 0 ∧ s.needsReview = 0
       else p.minPassRate ≤ (s.pass : ℚ) / (s.total : ℚ) ∧
         (s.needsReview : ℚ) / (s.total : ℚ) ≤ p.maxNeedsReviewRate ∧
         (p.requireZeroCriticalFailures = true → s.criticalFailures = 0)) := by
  have htotal : max 1 (if s.total = 0 then 1 else s.total) = s.total := by
    have h0 : s.total ≠ 0 := by omega
    rw [if_neg h0]
    omega
  unfold decisionFor
  rw [htotal]
  cases hs : p.strictPassRequired with
  | true =>
    simp only [if_pos rfl, if_true]
    rw [Bool.and_eq_true]
    simp [Nat.eq_zero_of_le_zero]
  | false =>
    simp only [Bool.false_eq_true, if_false]
    rw [Bool.and_eq_true, Bool.and_eq_true]
    cases hz : p.requireZeroCriticalFailures <;> simp [and_assoc]

/-- The claim's own numeric example. -/
def summaryExample : BatchSummary :=
  { total := 20, pass := 19, needsReview := 0, fail := 1, criticalFailures := 0 }

/-- The claim's own policy example. -/
def policyExample : RemediationPolicy :=
  { minPassRate := 9/10, maxNeedsReviewRate := 1/20,
    requireZeroCriticalFailures := true, strictPassRequired := false }

/-- C8 witness: the 19-of-20 batch with one non-critical failure is accepted
under the threshold policy. -/
theorem c8_decision_witness : decisionFor summaryExample policyExample = true :=
  (c8_decision summaryExample policyExample (by norm_num [summaryExample])).mpr
    (by norm_num [summaryExample, policyExample])

/-- Helper for the accepted case of C9: the loop started at any cycle stops
at the first accepted cycle within the remaining budget. -/
theorem loopGo_accepts (accepts : Nat → Bool) (k : Nat) (hk : accepts k = true) :
    ∀ remaining cycle, (∀ j, cycle ≤ j → j < k → accepts j = false) →
      cycle ≤ k → k < cycle + remaining →
      loopGo accepts cycle remaining =
        { outcome := LoopOutcome.ACCEPTED, lastCycle := k, exitCode := 0 } := by
  intro remaining
  induction remaining with
  | zero => intro cycle _ h1 h2; omega
  | succ r ih =>
    intro cycle hbefore h1 h2
    by_cases hck : cycle = k
    · subst hck
      rw [loopGo, if_pos hk]
    · have hlt : cycle < k := by omega
      rw [loopGo, if_neg (by simp [hbefore cycle (le_refl cycle) hlt])]
      exact ih (cycle + 1) (fun j hj1 hj2 => hbefore j (by omega) hj2) (by omega) (by omega)

/-- C9: with maxCycles 3, if no cycle's batch summary satisfies the policy
then the loop runs exactly three cycles and terminates EXHAUSTED with a
non-zero exit, never starting a fourth; and whenever some cycle within the
budget is the first accepted one, the loop stops immediately at that cycle
in ACCEPTED with exit code 0. -/
theorem c9_loop_termination (summaries : Nat → BatchSummary) (p : RemediationPolicy) :
    ((∀ c, 1 ≤ c → c ≤ 3 → decisionFor (summaries c) p = false) →
      remediationRun summaries p 3 =
        { outcome := LoopOutcome.EXHAUSTED, lastCycle := 3, exitCode := 1 }) ∧
    (∀ maxCycles k, 1 ≤ k → k ≤ maxCycles →
      (∀ j, 1 ≤ j → j < k → decisionFor (summaries j) p = false) →
      decisionFor (summaries k) p = true →
      remediationRun summaries p maxCycles =
        { outcome := LoopOutcome.ACCEPTED, lastCycle := k, exitCode := 0 }) := by
  constructor
  · intro hall
    have h1 := hall 1 (by omega) (by omega)
    have h2 := hall 2 (by omega) (by omega)
    have h3 := hall 3 (by omega) (by omega)
    show loopGo _ 1 3 = _
    rw [loopGo, if_neg (by simp [h1])]
    rw [loopGo, if_neg (by simp [h2])]
    rw [loopGo, if_neg (by simp [h3])]
    rfl
  · intro maxCycles k hk1 hk2 hbefore hk
    exact loopGo_accepts _ k hk maxCycles 1
      (fun j hj1 hj2 => hbefore j hj1 hj2) hk1 (by omega)

/-- A summary that the strict policy rejects. -/
def summaryReject : BatchSummary :=
  { total := 1, pass := 0, needsReview := 0, fail := 1, criticalFailures := 1 }

/-- A summary every policy accepts in strict mode. -/
def summaryAccept : BatchSummary :=
  { total := 1, pass := 1, needsReview := 0, fail := 0, criticalFailures := 0 }

/-- A strict policy for the C9 witness. -/
def strictPolicy : RemediationPolicy :=
  { minPassRate := 1, maxNeedsReviewRate := 0,
    requireZeroCriticalFailures := true, strictPassRequired := true }

/-- C9 witness: a run whose three cycles all fail ends EXHAUSTED after cycle
3 with exit 1, and a run whose second cycle is the first accepted one ends
ACCEPTED at cycle 2 with exit 0. -/
theorem c9_loop_termination_witness :
    remediationRun (fun _ => summaryReject) strictPolicy 3 =
      { outcome := LoopOutcome.EXHAUSTED, lastCycle := 3, exitCode := 1 } ∧
    remediationRun (fun c => if c = 2 then summaryAccept else summaryReject)
        strictPolicy 3 =
      { outcome := LoopOutcome.ACCEPTED, lastCycle := 2, exitCode := 0 } := by
  constructor
  · exact (c9_loop_termination (fun _ => summaryReject) strictPolicy).1
      (fun c _ _ => by decide)
  · apply (c9_loop_termination
      (fun c => if c = 2 then summaryAccept else summaryReject) strictPolicy).2
      3 2 (by omega) (by omega)
    · intro j hj1 hj2
      have hj : j = 1 := by omega
      subst hj
      decide
    · decide

end Migration
